import Mathlib

/-!
Verification development for the `pycamb` wrapper (`src/pycamb/pycamb.py`).

The program orchestrates an external CAMB executable through FIFO named
pipes: it merges caller parameters into a defaults dictionary, computes the
list of output files to replace with pipes, serializes the parameter file,
spawns a reader thread for the output pipes and a writer thread for the
parameter pipe, runs the executable, and assembles a result dictionary.

The development shallowly embeds the pieces of that program the claims are
about:

* Python dictionaries are embedded as association lists (`getv`, `dictSet`,
  `dict_update`), with first-match lookup; `dict.update` is a left fold of
  single-key assignment.
* The output-plan computation of `pycamb.__call__` (lines 73-78) is
  `outputfiles`; a missing switch key raises `KeyError`, embedded as
  `Except.error`.
* The parameter-file serializer `writeparams` (line 91) and the ini parser
  `_read_ini` (lines 154-159, delegating to Python 2.7's
  `RawConfigParser._read`) are embedded over `Str := List Char`.
* The thread/FIFO rendezvous behaviour of `__call__` (lines 101-122) is
  embedded twice: a nondeterministic interleaving model (`Interleave`) for
  the readiness-event ordering, and a deterministic outcome model
  (`runModel`) for completion/hang/cleanup behaviour.
* `pycamb.derivative` (lines 124-135) is embedded as `derivative_model`
  with explicit state passing for the mutated parameter dictionary, with
  numeric values as rationals.
-/

/-- First-match lookup in an association list; embeds Python `d[k]` /
`d.get(k)` for dictionaries (which hold each key at most once). -/
def getv {α β : Type} [DecidableEq α] : List (α × β) → α → Option β
  | [], _ => none
  | (k', v') :: rest, k => if k' = k then some v' else getv rest k

/-- Single-key assignment `d[k] = v`: replaces the first binding of `k`,
or appends one.  On lists whose keys are unique this is exactly the Python
dictionary assignment. -/
def dictSet {α β : Type} [DecidableEq α] : List (α × β) → α → β → List (α × β)
  | [], k, v => [(k, v)]
  | (k', v') :: rest, k, v =>
      if k' = k then (k, v) :: rest else (k', v') :: dictSet rest k v

/-- Python `d.update(o)`: assign each binding of `o` into `d` in order. -/
def dict_update {α β : Type} [DecidableEq α] (d o : List (α × β)) : List (α × β) :=
  o.foldl (fun acc kv => dictSet acc kv.1 kv.2) d

/-- `pycamb.__call__` lines 69-70: `p = self.defaults.copy(); p.update(params)`.
Keys are not validated against any schema; whatever keys `overrides` holds
are written into the copy of `defaults`. -/
def merge (defaults overrides : List (String × String)) : List (String × String) :=
  dict_update defaults overrides

theorem getv_dictSet_self {α β : Type} [DecidableEq α] (d : List (α × β)) (k : α) (v : β) :
    getv (dictSet d k v) k = some v := by
  induction d with
  | nil => simp [dictSet, getv]
  | cons kv rest ih =>
      obtain ⟨k', v'⟩ := kv
      by_cases h : k' = k
      · simp [dictSet, h, getv]
      · simp [dictSet, h, getv, ih]

theorem getv_dictSet_ne {α β : Type} [DecidableEq α] (d : List (α × β)) (k k' : α) (v : β)
    (h : k ≠ k') : getv (dictSet d k v) k' = getv d k' := by
  induction d with
  | nil => simp [dictSet, getv, h]
  | cons kv rest ih =>
      obtain ⟨k₀, v₀⟩ := kv
      by_cases h0 : k₀ = k
      · simp [dictSet, h0, getv, h]
      · simp [dictSet, h0, getv, ih]

theorem dictSet_dictSet {α β : Type} [DecidableEq α] (d : List (α × β)) (k : α) (v w : β) :
    dictSet (dictSet d k v) k w = dictSet d k w := by
  induction d with
  | nil => simp [dictSet]
  | cons kv rest ih =>
      obtain ⟨k₀, v₀⟩ := kv
      by_cases h0 : k₀ = k
      · simp [dictSet, h0]
      · simp [dictSet, h0, ih]

theorem getv_eq_none_of_not_mem_keys {α β : Type} [DecidableEq α]
    (d : List (α × β)) (k : α) (h : k ∉ d.map Prod.fst) : getv d k = none := by
  induction d with
  | nil => rfl
  | cons kv rest ih =>
      simp only [List.map_cons, List.mem_cons] at h
      push_neg at h
      simpa [getv, Ne.symm h.1] using ih h.2

/-- Characterisation of `dict.update` on dictionaries with unique keys:
lookup in the updated dictionary prefers the override's binding. -/
theorem getv_dict_update {α β : Type} [DecidableEq α] (d o : List (α × β))
    (hnd : (o.map Prod.fst).Nodup) (k : α) :
    getv (dict_update d o) k =
      if (getv o k).isSome then getv o k else getv d k := by
  induction o generalizing d with
  | nil => simp [dict_update, getv]
  | cons kv o' ih =>
      obtain ⟨k₀, v₀⟩ := kv
      simp only [List.map_cons, List.nodup_cons] at hnd
      have step : dict_update d ((k₀, v₀) :: o') = dict_update (dictSet d k₀ v₀) o' := rfl
      by_cases hk : k₀ = k
      · subst hk
        have ho' : getv o' k₀ = none :=
          getv_eq_none_of_not_mem_keys o' k₀ hnd.1
        rw [step, ih (dictSet d k₀ v₀) hnd.2, ho']
        simp [getv, getv_dictSet_self]
      · rw [step, ih (dictSet d k₀ v₀) hnd.2, getv_dictSet_ne d k₀ k v₀ hk]
        simp [getv, hk]

/-- Parameter dictionaries as seen by `__call__`: string keys and values. -/
abbrev Params := List (String × String)

/-- Python `p[k]` on a dictionary: `KeyError k` if absent, embedded in
`Except`. -/
def lookupE (p : Params) (k : String) : Except String String :=
  match getv p k with
  | some v => .ok v
  | none => .error k

/-- `pycamb.__call__` lines 73-78: the output plan.

```
outputfiles = []
if p['get_scalar_cls']=='T': outputfiles += ['scalar_output_file']
if p['get_vector_cls']=='T': outputfiles += ['vector_output_file']
if p['get_tensor_cls']=='T': outputfiles += ['tensor_output_file']
if p['do_lensing']=='T': outputfiles += ['lensed_output_file', 'lensed_output_file']
if p['get_transfer']=='T': outputfiles += ['transfer_filename(1)', 'transfer_matterpower(1)']
```

Each `p[...]` lookup raises `KeyError` when the switch key is absent; the
lookups happen in source order.  Note the lensing branch appends
`'lensed_output_file'` twice, exactly as the source does. -/
def outputfiles (p : Params) : Except String (List String) :=
  match lookupE p "get_scalar_cls" with
  | .error e => .error e
  | .ok s =>
    match lookupE p "get_vector_cls" with
    | .error e => .error e
    | .ok v =>
      match lookupE p "get_tensor_cls" with
      | .error e => .error e
      | .ok t =>
        match lookupE p "do_lensing" with
        | .error e => .error e
        | .ok l =>
          match lookupE p "get_transfer" with
          | .error e => .error e
          | .ok tr =>
            .ok ((if s = "T" then ["scalar_output_file"] else []) ++
                 (if v = "T" then ["vector_output_file"] else []) ++
                 (if t = "T" then ["tensor_output_file"] else []) ++
                 (if l = "T" then ["lensed_output_file", "lensed_output_file"] else []) ++
                 (if tr = "T" then ["transfer_filename(1)", "transfer_matterpower(1)"] else []))

/-- A merged parameter set with `do_lensing` set to the truthy token and
every other feature switch falsy. -/
def pC4 : Params :=
  [("get_scalar_cls", "F"), ("get_vector_cls", "F"), ("get_tensor_cls", "F"),
   ("do_lensing", "T"), ("get_transfer", "F")]

/-- C4 counterexample: on a parameter set whose only truthy switch is
`do_lensing`, the plan contains the lensed channel TWICE, not exactly once
as the claim states — the source appends `'lensed_output_file'` twice. -/
theorem C4_output_plan_counterexample :
    Except.map (List.count "lensed_output_file") (outputfiles pC4) = .ok 2 := by
  rfl

/-- C4 (amended): the output plan is exactly determined by the five boolean
switches; `get_scalar_cls`, `get_vector_cls`, `get_tensor_cls` truthy each
add one channel, `do_lensing` truthy adds the lensed channel exactly TWICE
(the source's duplicated entry), `get_transfer` truthy adds the two
transfer channels, and no channel is added for any switch whose value is
not the truthy token `"T"`. -/
theorem C4_output_plan_amended (p : Params) (s v t l tr : String)
    (hs : lookupE p "get_scalar_cls" = .ok s)
    (hv : lookupE p "get_vector_cls" = .ok v)
    (ht : lookupE p "get_tensor_cls" = .ok t)
    (hl : lookupE p "do_lensing" = .ok l)
    (htr : lookupE p "get_transfer" = .ok tr) :
    ∃ os, outputfiles p = .ok os ∧
      os.count "scalar_output_file" = (if s = "T" then 1 else 0) ∧
      os.count "vector_output_file" = (if v = "T" then 1 else 0) ∧
      os.count "tensor_output_file" = (if t = "T" then 1 else 0) ∧
      os.count "lensed_output_file" = (if l = "T" then 2 else 0) ∧
      os.count "transfer_filename(1)" = (if tr = "T" then 1 else 0) ∧
      os.count "transfer_matterpower(1)" = (if tr = "T" then 1 else 0) ∧
      ∀ c ∈ os, c ∈ ["scalar_output_file", "vector_output_file", "tensor_output_file",
                     "lensed_output_file", "transfer_filename(1)", "transfer_matterpower(1)"] := by
  refine ⟨(if s = "T" then ["scalar_output_file"] else []) ++
          (if v = "T" then ["vector_output_file"] else []) ++
          (if t = "T" then ["tensor_output_file"] else []) ++
          (if l = "T" then ["lensed_output_file", "lensed_output_file"] else []) ++
          (if tr = "T" then ["transfer_filename(1)", "transfer_matterpower(1)"] else []),
      ?_, ?_⟩
  · simp only [outputfiles, hs, hv, ht, hl, htr]
  · by_cases h1 : s = "T" <;> by_cases h2 : v = "T" <;> by_cases h3 : t = "T" <;>
      by_cases h4 : l = "T" <;> by_cases h5 : tr = "T" <;>
      simp [h1, h2, h3, h4, h5]

/-- Witness for `C4_output_plan_amended` at the concrete set `pC4`. -/
theorem C4_output_plan_witness :
    lookupE pC4 "get_scalar_cls" = .ok "F" ∧
    lookupE pC4 "do_lensing" = .ok "T" ∧
    (∃ os, outputfiles pC4 = .ok os ∧
      os.count "scalar_output_file" = (if ("F" : String) = "T" then 1 else 0) ∧
      os.count "vector_output_file" = (if ("F" : String) = "T" then 1 else 0) ∧
      os.count "tensor_output_file" = (if ("F" : String) = "T" then 1 else 0) ∧
      os.count "lensed_output_file" = (if ("T" : String) = "T" then 2 else 0) ∧
      os.count "transfer_filename(1)" = (if ("F" : String) = "T" then 1 else 0) ∧
      os.count "transfer_matterpower(1)" = (if ("F" : String) = "T" then 1 else 0) ∧
      ∀ c ∈ os, c ∈ ["scalar_output_file", "vector_output_file", "tensor_output_file",
                     "lensed_output_file", "transfer_filename(1)", "transfer_matterpower(1)"]) :=
  ⟨rfl, rfl, C4_output_plan_amended pC4 "F" "F" "F" "T" "F" rfl rfl rfl rfl rfl⟩

/-- C5: merging defaults with caller overrides (`p = defaults.copy();
p.update(params)`) is a right-biased union: a key bound in the overrides
maps to the override's value, a key bound only in the defaults keeps its
value, and unknown keys pass through with no schema validation. -/
theorem C5_merge_right_biased (d o : List (String × String))
    (hnd : (o.map Prod.fst).Nodup) (k : String) :
    (∀ v, getv o k = some v → getv (merge d o) k = some v) ∧
    (getv o k = none → getv (merge d o) k = getv d k) := by
  constructor
  · intro v hv
    rw [merge, getv_dict_update d o hnd k, hv]
    rfl
  · intro hv
    rw [merge, getv_dict_update d o hnd k, hv]
    rfl

/-- Witness for `C5_merge_right_biased`: a key present in both sides takes
the override's value, and a defaults-only key survives. -/
theorem C5_merge_right_biased_witness :
    ((([("b", "3"), ("c", "4")] : List (String × String)).map Prod.fst).Nodup) ∧
    ((∀ v, getv [("b", "3"), ("c", "4")] "b" = some v →
        getv (merge [("a", "1"), ("b", "2")] [("b", "3"), ("c", "4")]) "b" = some v) ∧
     (getv [("b", "3"), ("c", "4")] "b" = none →
        getv (merge [("a", "1"), ("b", "2")] [("b", "3"), ("c", "4")]) "b" =
          getv [("a", "1"), ("b", "2")] "b")) :=
  ⟨by decide, C5_merge_right_biased [("a", "1"), ("b", "2")] [("b", "3"), ("c", "4")]
      (by decide) "b"⟩

/-- Text is embedded as a list of characters (Python `str`). -/
abbrev Str := List Char

/-- Python `s.strip()` (default whitespace). -/
def strStrip (s : Str) : Str :=
  ((s.dropWhile Char.isWhitespace).reverse.dropWhile Char.isWhitespace).reverse

/-- Python `s.rstrip()`. -/
def rstripStr (s : Str) : Str :=
  (s.reverse.dropWhile Char.isWhitespace).reverse

/-- Python `s.lower()`. -/
def lowerStr (s : Str) : Str := s.map Char.toLower

/-- Decompose a text into its lines, splitting at every `'\n'`.  A text
ending in `'\n'` yields a final empty line; the ini parser skips blank
lines, so this matches Python's file-line iteration on all parser-relevant
behaviour. -/
def splitLines : Str → List Str
  | [] => [[]]
  | c :: cs =>
      if c = '\n' then [] :: splitLines cs
      else
        match splitLines cs with
        | [] => [[c]]
        | l :: ls => (c :: l) :: ls

/-- Python `'\n'.join(ls)`. -/
def joinNL : List Str → Str
  | [] => []
  | [l] => l
  | l :: ls => l ++ '\n' :: joinNL ls

/-- `writeparams` (`pycamb.__call__` line 91):

```
f.write('\n'.join(['%s = %s'%i for i in p.items()]+['END','']))
```

one `key = value` line per entry, then the sentinel line `END`, then the
empty string, all joined by newlines. -/
def writeparams_text (p : List (Str × Str)) : Str :=
  joinNL (p.map (fun kv => kv.1 ++ (' ' :: '=' :: ' ' :: []) ++ kv.2) ++
          [('E' :: 'N' :: 'D' :: []), []])

theorem splitLines_ne_nil (s : Str) : splitLines s ≠ [] := by
  match s with
  | [] => simp [splitLines]
  | c :: cs =>
      by_cases hc : c = '\n'
      · simp [splitLines, hc]
      · cases hx : splitLines cs with
        | nil => simp [splitLines, hc, hx]
        | cons l ls => simp [splitLines, hc, hx]

theorem splitLines_append (x y : Str) :
    splitLines (x ++ '\n' :: y) = splitLines x ++ splitLines y := by
  induction x with
  | nil => simp [splitLines]
  | cons c x' ih =>
      by_cases hc : c = '\n'
      · subst hc
        simp [splitLines, ih]
      · cases hx : splitLines x' with
        | nil => exact absurd hx (splitLines_ne_nil x')
        | cons l ls =>
            simp only [List.cons_append, splitLines, if_neg hc, List.append_eq, ih, hx]

theorem splitLines_no_newline {l : Str} (h : '\n' ∉ l) : splitLines l = [l] := by
  induction l with
  | nil => rfl
  | cons c l' ih =>
      simp only [List.mem_cons] at h
      push_neg at h
      have := ih h.2
      simp [splitLines, Ne.symm h.1, this]

/-- Splitting a newline-join recovers the joined list when no element
contains a newline-splittable part. -/
theorem splitLines_joinNL (ls : List Str) (hne : ls ≠ [])
    (h : ∀ l ∈ ls, splitLines l = [l]) : splitLines (joinNL ls) = ls := by
  induction ls with
  | nil => cases hne rfl
  | cons l ls' ih =>
      cases ls' with
      | nil => simpa [joinNL] using h l (by simp)
      | cons m t =>
          rw [show joinNL (l :: m :: t) = l ++ '\n' :: joinNL (m :: t) from rfl,
              splitLines_append, h l (by simp),
              ih (by simp) (fun x hx => h x (by simp [hx]))]
          rfl

theorem mem_splitLines_joinNL (ls : List Str) (l : Str) (hl : l ∈ ls)
    (x : Str) (hx : x ∈ splitLines l) : x ∈ splitLines (joinNL ls) := by
  induction ls with
  | nil => cases hl
  | cons m t ih =>
      cases t with
      | nil =>
          have : l = m := by simpa using hl
          simpa [joinNL, ← this] using hx
      | cons m' t' =>
          rw [show joinNL (m :: m' :: t') = m ++ '\n' :: joinNL (m' :: t') from rfl,
              splitLines_append]
          rcases List.mem_cons.mp hl with h | h
          · exact List.mem_append_left _ (h ▸ hx)
          · exact List.mem_append_right _ (ih h)

/-- C7: the text written to the parameter channel consists of one
`key = value` line per entry (in the dictionary's order), terminated by a
line containing only `END`, followed by a trailing blank line. -/
theorem C7_paramfile_format (p : List (Str × Str))
    (h : ∀ kv ∈ p, '\n' ∉ kv.1 ∧ '\n' ∉ kv.2) :
    splitLines (writeparams_text p) =
      p.map (fun kv => kv.1 ++ (' ' :: '=' :: ' ' :: []) ++ kv.2) ++
        [('E' :: 'N' :: 'D' :: []), []] := by
  rw [writeparams_text]
  apply splitLines_joinNL
  · simp
  · intro l hl
    rcases List.mem_append.mp hl with hmem | hmem
    · obtain ⟨kv, hkv, rfl⟩ := List.mem_map.mp hmem
      apply splitLines_no_newline
      intro hn
      have hkv' := h kv hkv
      rcases List.mem_append.mp hn with hn1 | hn2
      · rcases List.mem_append.mp hn1 with hn3 | hn4
        · exact hkv'.1 hn3
        · exact absurd hn4 (by decide)
      · exact hkv'.2 hn2
    · rcases (by simpa using hmem : l = ('E' :: 'N' :: 'D' :: []) ∨ l = []) with rfl | rfl
      · decide
      · decide

/-- Witness for `C7_paramfile_format` on the one-entry dictionary
`{'a': '1'}`. -/
theorem C7_paramfile_format_witness :
    (∀ kv ∈ ([(['a'], ['1'])] : List (Str × Str)), '\n' ∉ kv.1 ∧ '\n' ∉ kv.2) ∧
    splitLines (writeparams_text [(['a'], ['1'])]) =
      ([(['a'], ['1'])] : List (Str × Str)).map
          (fun kv => kv.1 ++ (' ' :: '=' :: ' ' :: []) ++ kv.2) ++
        [('E' :: 'N' :: 'D' :: []), []] :=
  ⟨by decide, C7_paramfile_format [(['a'], ['1'])] (by decide)⟩

/-- First whitespace-delimited token of a line: Python
`line.split(None, 1)[0]` (on a line that is not all whitespace). -/
def firstToken (line : Str) : Str :=
  (line.dropWhile Char.isWhitespace).takeWhile (fun c => !c.isWhitespace)

/-- Python 2.7 `RawConfigParser.SECTCRE` (`\[([^]]+)\]`) matched at the
start of a line: an opening bracket, a nonempty run of non-`]` characters
(the header), a closing bracket; the rest of the line is ignored. -/
def parseSectLine (line : Str) : Option Str :=
  match line with
  | '[' :: rest =>
      let hdr := rest.takeWhile (fun c => !(c == ']'))
      let rest' := rest.dropWhile (fun c => !(c == ']'))
      if hdr ≠ [] ∧ rest' ≠ [] then some hdr else none
  | _ => none

/-- Python 2.7 `RawConfigParser.OPTCRE`
(`([^:=\s][^:=]*)\s*([:=])\s*(.*)$`) matched at the start of a line: the
option name runs up to the first `:` or `=` (and may not start with
whitespace or a delimiter), the delimiter follows, and the value is the
rest of the line with leading whitespace dropped.  Returns the raw option
text (before `rstrip`/`lower`) and the raw value text. -/
def parseOptLine (line : Str) : Option (Str × Str) :=
  match line with
  | [] => none
  | c :: _ =>
      if c.isWhitespace ∨ c = ':' ∨ c = '=' then none
      else
        match line.findIdx? (fun ch => ch == ':' || ch == '=') with
        | none => none
        | some d => some (line.take d, (line.drop (d + 1)).dropWhile Char.isWhitespace)

/-- The inline-comment cut of `RawConfigParser._read`:

```
pos = optval.find(';')
if pos != -1 and optval[pos-1].isspace():
    optval = optval[:pos]
```

note the Python negative-index quirk at `pos = 0`, where `optval[-1]` is
the last character. -/
def cutComment (rest : Str) : Str :=
  match rest.findIdx? (fun c => c == ';') with
  | none => rest
  | some 0 =>
      match rest.getLast? with
      | some c => if c.isWhitespace then [] else rest
      | none => rest
  | some (j + 1) =>
      match rest[j]? with
      | some c => if c.isWhitespace then rest.take (j + 1) else rest
      | none => rest

/-- What one iteration of the `RawConfigParser._read` loop decides about a
line, as far as that depends on the line alone: skipped (blank, comment,
`rem`), continuation candidate (leading whitespace), section header,
`key = value` option line (key already `rstrip`-ed and lowercased by
`optionxform`, value comment-cut, stripped, and `""`-collapsed), or a line
that matches nothing and raises a deferred `ParsingError`. -/
inductive LineKind where
  | blank : LineKind
  | indented : Str → LineKind
  | sect : Str → LineKind
  | opt : Str → Str → LineKind
  | bad : LineKind
deriving DecidableEq

def classify (line : Str) : LineKind :=
  if strStrip line = [] then .blank
  else if line.head? = some '#' ∨ line.head? = some ';' then .blank
  else if lowerStr (firstToken line) = ['r', 'e', 'm'] ∧
          (line.head? = some 'r' ∨ line.head? = some 'R') then .blank
  else if (line.head?.map Char.isWhitespace).getD false then .indented (strStrip line)
  else
    match parseSectLine line with
    | some hdr => .sect hdr
    | none =>
      match parseOptLine line with
      | some (rawOpt, rest) =>
          let val0 := strStrip (cutComment rest)
          let val := if val0 = ['"', '"'] then [] else val0
          .opt (lowerStr (rstripStr rawOpt)) val
      | none => .bad

/-- Parser state of `RawConfigParser._read`: the accumulated sections
(each a dictionary of options), the current section, the last option name
(for continuation lines), the deferred-`ParsingError` flag, and an
`aborted` flag for the immediately-raised errors
(`MissingSectionHeaderError`, or a `KeyError` on a continuation whose
option vanished).  Once `aborted` is set the Python parser has already
raised; the model keeps folding but the final result is discarded. -/
structure PState where
  sections : List (Str × List (Str × Str))
  cursect : Option Str
  optname : Option Str
  hasError : Bool
  aborted : Bool

def initPState : PState := ⟨[], none, none, false, false⟩

def processLine (st : PState) (line : Str) : PState :=
  match classify line with
  | .blank => st
  | .indented v =>
      match st.cursect, st.optname with
      | some sect, some opt =>
          if v = [] then st
          else
            match getv st.sections sect with
            | some d =>
                match getv d opt with
                | some oldv =>
                    { st with sections :=
                        dictSet st.sections sect (dictSet d opt (oldv ++ '\n' :: v)) }
                | none => { st with aborted := true }
            | none => { st with aborted := true }
      | none, _ => { st with aborted := true }
      | some _, none => { st with hasError := true }
  | .sect hdr =>
      { st with
        sections := if (getv st.sections hdr).isSome then st.sections
                    else dictSet st.sections hdr [],
        cursect := some hdr,
        optname := none }
  | .opt key val =>
      match st.cursect with
      | none => { st with aborted := true }
      | some sect =>
          { st with
            sections := dictSet st.sections sect (dictSet ((getv st.sections sect).getD []) key val),
            optname := some key }
  | .bad =>
      match st.cursect with
      | none => { st with aborted := true }
      | some _ => { st with hasError := true }

def processLines (st : PState) (ls : List Str) : PState := ls.foldl processLine st

/-- The `[root]` header `_read_ini` prepends to the ini text. -/
def rootHeader : Str := ['[', 'r', 'o', 'o', 't', ']']

def rootName : Str := ['r', 'o', 'o', 't']

/-- `_read_ini` (`pycamb.py` lines 154-159): feed `'[root]\n' + ini` to a
`RawConfigParser` and return `dict(config.items('root'))`.  `items`
deletes the internal `__name__` entry; a parse failure (deferred
`ParsingError` or an immediately-raised error) is `Except.error`.  The
model covers the inline-text case (the `os.path.exists` file indirection
is I/O outside the embedding). -/
def _read_ini (ini : Str) : Except Unit (List (Str × Str)) :=
  let st := processLines initPState (splitLines (rootHeader ++ '\n' :: ini))
  if st.aborted || st.hasError then .error ()
  else
    match getv st.sections rootName with
    | some d => .ok (d.filter (fun kv => !(kv.1 == ['_', '_', 'n', 'a', 'm', 'e', '_', '_'])))
    | none => .error ()

/-- The sentinel line `END` that `writeparams` appends. -/
def endLine : Str := ['E', 'N', 'D']

/-- A run of `RawConfigParser._read` ends in an exception iff a deferred
`ParsingError` was recorded or an immediate error was raised. -/
def errFlag (st : PState) : Bool := st.aborted || st.hasError

theorem classify_endLine : classify endLine = .bad := by decide

/-- The `END` line matches neither the section nor the option pattern, so
processing it always records an error. -/
theorem processLine_endLine (st : PState) : errFlag (processLine st endLine) = true := by
  unfold processLine
  rw [classify_endLine]
  cases st.cursect <;> simp [errFlag]

theorem errFlag_processLine_mono (st : PState) (l : Str) (h : errFlag st = true) :
    errFlag (processLine st l) = true := by
  unfold errFlag at h ⊢
  unfold processLine
  (repeat' split) <;> simp_all

theorem errFlag_processLines_mono (ls : List Str) (st : PState) (h : errFlag st = true) :
    errFlag (processLines st ls) = true := by
  induction ls generalizing st with
  | nil => simpa [processLines] using h
  | cons l t ih =>
      have := ih (processLine st l) (errFlag_processLine_mono st l h)
      simpa [processLines] using this

theorem errFlag_processLines_of_mem_endLine (ls : List Str) (st : PState)
    (h : endLine ∈ ls) : errFlag (processLines st ls) = true := by
  induction ls generalizing st with
  | nil => cases h
  | cons l t ih =>
      rcases List.mem_cons.mp h with hl | hmem
      · have := errFlag_processLines_mono t (processLine st l)
          (hl ▸ processLine_endLine st)
        simpa [processLines] using this
      · have := ih (processLine st l) hmem
        simpa [processLines] using this

theorem endLine_mem_lines (p : List (Str × Str)) :
    endLine ∈ splitLines (rootHeader ++ '\n' :: writeparams_text p) := by
  rw [show (rootHeader : Str) ++ '\n' :: writeparams_text p
        = rootHeader ++ ('\n' :: writeparams_text p) from rfl]
  rw [splitLines_append]
  apply List.mem_append_right
  rw [writeparams_text]
  exact mem_splitLines_joinNL _ endLine (by simp [endLine]) endLine (by decide)

/-- The round-trip dictionary used as the concrete C6 counterexample:
`{'a': '1'}`. -/
def pC6 : List (Str × Str) := [(['a'], ['1'])]

/-- C6 counterexample: serializing the one-entry dictionary `{'a': '1'}`
to the parameter-file text and re-parsing that text with `_read_ini` does
not yield the same mapping — the parse fails outright, because the `END`
sentinel line is not a `key = value` line and `RawConfigParser` raises a
`ParsingError` on it. -/
theorem C6_roundtrip_counterexample : _read_ini (writeparams_text pC6) = .error () := by
  rfl

/-- C6 (amended): serializing any ParameterSet to the parameter-file text
and re-parsing it with `_read_ini` never yields a mapping at all: the
parser always fails, because the serialized text always contains the
sentinel line `END`, which matches neither the section-header nor the
`key = value` pattern and therefore raises a `ParsingError`. -/
theorem C6_roundtrip_amended (p : List (Str × Str)) :
    _read_ini (writeparams_text p) = .error () := by
  have h := errFlag_processLines_of_mem_endLine
    (splitLines (rootHeader ++ '\n' :: writeparams_text p)) initPState (endLine_mem_lines p)
  unfold errFlag at h
  simp [_read_ini, h]

/-- Numeric tables produced by `numpy.loadtxt`: rows of rationals (the
claims are about dataflow, not floating-point rounding, so machine floats
are embedded as `ℚ`). -/
abbrev Table := List (List ℚ)

/-- The module-level `_output_files` dictionary (`pycamb.py` lines
163-171), mapping output-file parameter keys to logical result names;
two entries map to Python `None`, and one key carries the source's stray
trailing colon, exactly as written there. -/
def _output_files : List (String × Option String) :=
  [("scalar_output_file", some "scalar"),
   ("vector_output_file", some "vector"),
   ("tensor_output_file", some "tensor"),
   ("total_output_file:", none),
   ("lensed_output_file", some "lensed"),
   ("lens_potential_output_file", some "lens_potential"),
   ("lensed_total_output_file", none),
   ("transfer_filename(1)", some "transfer"),
   ("transfer_matterpower(1)", some "transfer_matterpower")]

/-- One iteration of the `readoutputs` loop body (`pycamb.py` lines
95-99) after the blocking open has returned:

```
try: result[_output_files[k]] = loadtxt(f)
except Exception: pass
```

`decode k` is what `loadtxt` yields on the bytes read from channel `k`
(`none` when it raises).  Both a `KeyError` on `_output_files[k]` and a
`loadtxt` failure happen inside the `try` and are swallowed, leaving
`result` untouched.  Result keys are `Option String` because the source
dictionary can map a key to `None`. -/
def rostep (decode : String → Option Table) (res : List (Option String × Table))
    (k : String) : List (Option String × Table) :=
  match getv _output_files k, decode k with
  | some name, some t => dictSet res name t
  | _, _ => res

/-- The result dictionary assembled by the `readoutputs` loop over the
planned channels. -/
def readoutputs_model (decode : String → Option Table) (os : List String) :
    List (Option String × Table) :=
  os.foldl (rostep decode) []

theorem getv_foldl_rostep_none (decode : String → Option Table) (n : Option String)
    (os : List String) (res : List (Option String × Table))
    (hfail : ∀ k' ∈ os, getv _output_files k' = some n → decode k' = none)
    (hres : getv res n = none) :
    getv (os.foldl (rostep decode) res) n = none := by
  induction os generalizing res with
  | nil => simpa using hres
  | cons k t ih =>
      rw [List.foldl_cons]
      apply ih
      · intro k' hk' hn
        exact hfail k' (List.mem_cons_of_mem _ hk') hn
      · cases hnm : getv _output_files k with
        | none =>
            simpa [rostep, hnm] using hres
        | some name =>
            cases hdk : decode k with
            | none => simpa [rostep, hnm, hdk] using hres
            | some tb =>
                have hne : name ≠ n := by
                  intro hEq
                  have := hfail k (List.mem_cons_self k t) (by rw [hnm, hEq])
                  rw [this] at hdk
                  cases hdk
                simp only [rostep, hnm, hdk]
                exact (getv_dictSet_ne res name n tb hne).trans hres

theorem foldl_rostep_filter (decode : String → Option Table) (os : List String)
    (res : List (Option String × Table)) :
    os.foldl (rostep decode) res
      = (os.filter (fun c => (decode c).isSome)).foldl (rostep decode) res := by
  induction os generalizing res with
  | nil => rfl
  | cons k t ih =>
      by_cases hd : (decode k).isSome = true
      · have hfil : List.filter (fun c => (decode c).isSome) (k :: t)
            = k :: List.filter (fun c => (decode c).isSome) t := by
          simp [List.filter_cons, hd]
        rw [List.foldl_cons, hfil, List.foldl_cons, ih]
      · have hnone : decode k = none := by
          cases hdk : decode k
          · rfl
          · rw [hdk] at hd
            simp at hd
        have hstep : rostep decode res k = res := by
          simp only [rostep, hnone]
          cases getv _output_files k <;> rfl
        have hfil : List.filter (fun c => (decode c).isSome) (k :: t)
            = List.filter (fun c => (decode c).isSome) t := by
          simp [List.filter_cons, hnone]
        rw [List.foldl_cons, hstep, hfil, ih]

/-- C8: a decode failure on one channel is swallowed per channel: that
channel's result name is absent from the assembled result dictionary, and
failing channels contribute nothing — the result equals what the loop
produces on the successfully-decoding channels alone, so no other
channel's entry is affected and the loop is not aborted. -/
theorem C8_decode_failure_swallowed (decode : String → Option Table) (os : List String)
    (k : String) (n : Option String) (hk : k ∈ os)
    (hname : getv _output_files k = some n)
    (hfail : ∀ k' ∈ os, getv _output_files k' = some n → decode k' = none) :
    getv (readoutputs_model decode os) n = none ∧
    readoutputs_model decode os
      = readoutputs_model decode (os.filter (fun c => (decode c).isSome)) := by
  have _hdk : decode k = none := hfail k hk hname
  exact ⟨getv_foldl_rostep_none decode n os [] hfail rfl,
         foldl_rostep_filter decode os []⟩

/-- Witness for `C8_decode_failure_swallowed`: a plan where the scalar
channel's bytes fail to decode and the vector channel's decode succeeds. -/
theorem C8_decode_failure_swallowed_witness :
    ("scalar_output_file" ∈ ["scalar_output_file", "vector_output_file"]) ∧
    getv _output_files "scalar_output_file" = some (some "scalar") ∧
    (∀ k' ∈ ["scalar_output_file", "vector_output_file"],
        getv _output_files k' = some (some "scalar") →
        (fun c => if c = "scalar_output_file" then (none : Option Table) else some [[1]]) k' = none) ∧
    (getv (readoutputs_model
        (fun c => if c = "scalar_output_file" then (none : Option Table) else some [[1]])
        ["scalar_output_file", "vector_output_file"]) (some "scalar") = none ∧
     readoutputs_model
        (fun c => if c = "scalar_output_file" then (none : Option Table) else some [[1]])
        ["scalar_output_file", "vector_output_file"]
       = readoutputs_model
          (fun c => if c = "scalar_output_file" then (none : Option Table) else some [[1]])
          (["scalar_output_file", "vector_output_file"].filter
            (fun c => ((fun c => if c = "scalar_output_file" then (none : Option Table) else some [[1]]) c).isSome))) :=
  ⟨by decide, by decide, by decide,
   C8_decode_failure_swallowed _ _ "scalar_output_file" (some "scalar")
     (by decide) (by decide) (by decide)⟩

/-- Behaviour of one run of the external executable: the planned output
FIFOs it opens for writing (in order — CAMB writes its output files one at
a time), the standard output it emits, and its exit status. -/
structure ExeBeh where
  opens : List String
  stdout : String
  exitCode : Nat

/-- FIFO rendezvous between the single `readoutputs` thread, which opens
the planned channels `ros` for reading in order (line 95-96), and the
executable, which opens the channels `es` for writing in order.  An open
on either side blocks until the opposite side opens the same FIFO.
Returns how many reader opens completed and whether the executable ran to
completion:

* the executable finishes when its open list is exhausted (the reader may
  then still be blocked on its next open);
* if the reader has exhausted its list but the executable still wants to
  open another FIFO, or the two sides are blocked on different FIFOs,
  both block forever. -/
def syncOpens : List String → List String → Nat × Bool
  | _, [] => (0, true)
  | [], _ :: _ => (0, false)
  | r :: rs, e :: es =>
      if r = e then ((syncOpens rs es).1 + 1, (syncOpens rs es).2) else (0, false)

/-- Observable outcome of one `pycamb.__call__` run.  `unlinkError` is an
`OSError` raised inside the cleanup loop of line 119: when the plan holds
the same channel key twice (the duplicated `'lensed_output_file'` of line
77), line 81 creates two FIFOs but `p[k]` keeps only the second path (the
first FIFO is orphaned), and the loop unlinks that second path twice —
the second `os.unlink` raises, `os.unlink(paramfile)` never runs, and the
result dictionary is lost. -/
inductive RunOutcome where
  | keyError : String → RunOutcome
  | hangs : RunOutcome
  | raises : Nat → String → Bool → RunOutcome
  | returns : List (Option String × Table) → String → Bool → RunOutcome
  | unlinkError : RunOutcome
deriving DecidableEq

/-- Did the run unlink all its ephemeral FIFOs (lines 119-120)?  On
`unlinkError` the cleanup stopped partway: the orphaned first lensed FIFO
and the parameter FIFO stay on disk. -/
def cleanedUp : RunOutcome → Option Bool
  | .raises _ _ c => some c
  | .returns _ _ c => some c
  | .unlinkError => some false
  | _ => none

/-- Deterministic outcome model of `pycamb.__call__` lines 73-122 for a
given executable behaviour:

* `outputfiles` can raise `KeyError` (before any FIFO exists);
* the run blocks inside `subprocess.check_output` (line 111) when the
  executable itself blocks forever in `syncOpens` (`.hangs`);
* `check_output` raises `CalledProcessError(status, cmd, output)` on a
  non-zero exit status; there is no `try/finally`, so the `os.unlink`
  calls on lines 119-120 are skipped and the exception propagates with
  the captured output but without the result dictionary
  (`.raises status stdout false`);
* on a zero exit status, line 114 branches on `read_any[0]`, which is
  true exactly when at least one reader open completed: if no open
  completed, line 117 opens and closes every planned FIFO for append,
  releasing the reader (whose `loadtxt` then fails on the empty streams,
  so every planned key is absent), and the result dictionary is returned
  without joining the reader thread;
* if every reader open completed, `ro_thread.join()` returns and the
  decoded results are returned;
* on either of those two completing paths, the cleanup loop of line 119
  runs first: it unlinks `p[k]` for `k in outputfiles`, so a duplicated
  channel key (the `do_lensing` plan's doubled `'lensed_output_file'`,
  whose two line-81 FIFOs share the single dictionary entry `p[k]`)
  makes the second unlink of the same path raise `OSError`
  (`.unlinkError`); only a duplicate-free plan reaches `return result`
  with every FIFO and the parameter FIFO unlinked
  (`.returns … stdout true`);
* if some but not all opens completed, `ro_thread.join()` on line 115
  blocks forever on the reader's next open (`.hangs`).

The parameter-writer thread is never joined by the source and does not
affect the outcome, so it is not modelled; `decode k` abstracts what
`loadtxt` yields on channel `k`'s bytes. -/
def runModel (p : Params) (exe : ExeBeh) (decode : String → Option Table) : RunOutcome :=
  match outputfiles p with
  | .error k => .keyError k
  | .ok os =>
      let c := syncOpens os exe.opens
      if c.2 = false then .hangs
      else if exe.exitCode ≠ 0 then .raises exe.exitCode exe.stdout false
      else if c.1 = 0 then
        if os.Nodup then .returns [] exe.stdout true else .unlinkError
      else if c.1 = os.length then
        if os.Nodup then .returns (readoutputs_model decode os) exe.stdout true
        else .unlinkError
      else .hangs

/-- Plan with two channels (scalar and vector). -/
def pC2 : Params :=
  [("get_scalar_cls", "T"), ("get_vector_cls", "T"), ("get_tensor_cls", "F"),
   ("do_lensing", "F"), ("get_transfer", "F")]

/-- An executable that opens the scalar channel but never the vector
channel, and exits cleanly. -/
def exeC2 : ExeBeh := ⟨["scalar_output_file"], "out", 0⟩

/-- C2 counterexample: when the executable opens some (the scalar) but
not all (never the vector) planned output channels, the run does NOT
complete with the missing key absent — `read_any[0]` is true, so the
orchestrator takes the `ro_thread.join()` branch without ever releasing
the vector FIFO, and the join blocks forever. -/
theorem C2_partial_skip_counterexample :
    runModel pC2 exeC2 (fun _ => none) = RunOutcome.hangs := by
  rfl

/-- C2 (amended): the release-the-readers path exists only in the
all-skipped case, and completes only for duplicate-free plans.  When the
executable runs to completion having opened none of the planned output
channels and the plan holds no duplicated channel key, the orchestrator
opens and immediately closes every planned FIFO for writing, releasing
the blocked reader (which it does not join), every planned channel key is
absent from the returned result, and the FIFOs are unlinked.  When the
plan holds a duplicated key (`do_lensing` truthy), even that run raises
`OSError` in the cleanup loop, leaking the orphaned lensed FIFO and the
parameter FIFO.  When the executable opened some but not all planned
channels, the run hangs in `ro_thread.join()`. -/
theorem C2_partial_skip_amended (p : Params) (exe : ExeBeh)
    (decode : String → Option Table) (os : List String)
    (hos : outputfiles p = .ok os) (hexit : exe.exitCode = 0) :
    (exe.opens = [] → os.Nodup →
      runModel p exe decode = RunOutcome.returns [] exe.stdout true) ∧
    (exe.opens = [] → ¬ os.Nodup → runModel p exe decode = RunOutcome.unlinkError) ∧
    ((syncOpens os exe.opens).2 = true → 0 < (syncOpens os exe.opens).1 →
      (syncOpens os exe.opens).1 < os.length → runModel p exe decode = RunOutcome.hangs) := by
  refine ⟨?_, ?_, ?_⟩
  · intro hop hnd
    have hsync : syncOpens os exe.opens = (0, true) := by
      rw [hop]
      cases os <;> rfl
    simp [runModel, hos, hsync, hexit, hnd]
  · intro hop hnd
    have hsync : syncOpens os exe.opens = (0, true) := by
      rw [hop]
      cases os <;> rfl
    simp [runModel, hos, hsync, hexit, hnd]
  · intro hdone hpos hlt
    simp [runModel, hos, hexit, hdone, Nat.pos_iff_ne_zero.mp hpos, Nat.ne_of_lt hlt]

/-- An executable that opens no output channel and exits cleanly. -/
def exeC2w : ExeBeh := ⟨[], "out", 0⟩

/-- Witness for `C2_partial_skip_amended`: with the duplicate-free
two-channel plan and an executable that opens nothing, the run returns
with both keys absent and the FIFOs unlinked. -/
theorem C2_partial_skip_witness :
    outputfiles pC2 = .ok ["scalar_output_file", "vector_output_file"] ∧
    exeC2w.exitCode = 0 ∧
    ((exeC2w.opens = [] → (["scalar_output_file", "vector_output_file"] : List String).Nodup →
        runModel pC2 exeC2w (fun _ => none) = RunOutcome.returns [] exeC2w.stdout true) ∧
     (exeC2w.opens = [] → ¬ (["scalar_output_file", "vector_output_file"] : List String).Nodup →
        runModel pC2 exeC2w (fun _ => none) = RunOutcome.unlinkError) ∧
     ((syncOpens ["scalar_output_file", "vector_output_file"] exeC2w.opens).2 = true →
       0 < (syncOpens ["scalar_output_file", "vector_output_file"] exeC2w.opens).1 →
       (syncOpens ["scalar_output_file", "vector_output_file"] exeC2w.opens).1 <
         (["scalar_output_file", "vector_output_file"] : List String).length →
       runModel pC2 exeC2w (fun _ => none) = RunOutcome.hangs)) :=
  ⟨rfl, rfl, C2_partial_skip_amended pC2 exeC2w (fun _ => none)
      ["scalar_output_file", "vector_output_file"] rfl rfl⟩

/-- Plan with no output channels. -/
def pC3 : Params :=
  [("get_scalar_cls", "F"), ("get_vector_cls", "F"), ("get_tensor_cls", "F"),
   ("do_lensing", "F"), ("get_transfer", "F")]

/-- An executable that exits with status 5. -/
def exeC3 : ExeBeh := ⟨[], "boom", 5⟩

/-- C3 counterexample: on a run whose child exits with status 5, the call
raises with the status and captured output, but the ephemeral FIFOs are
NOT unlinked (`cleanedUp` is `false`): lines 119-120 are unreachable
because `subprocess.check_output` raised and `__call__` has no
`try/finally`.  The partial result dictionary is likewise not returned. -/
theorem C3_process_failure_counterexample :
    runModel pC3 exeC3 (fun _ => none) = RunOutcome.raises 5 "boom" false ∧
    cleanedUp (runModel pC3 exeC3 (fun _ => none)) = some false :=
  ⟨rfl, rfl⟩

/-- C3 (amended): when the child process runs to completion and exits
non-zero, the call raises `CalledProcessError` carrying that exact exit
status and the captured output; the partial result dictionary is
discarded (the exception carries no channel results) and no ephemeral
FIFO is unlinked — cleanup runs only on the success path. -/
theorem C3_process_failure_amended (p : Params) (exe : ExeBeh)
    (decode : String → Option Table) (os : List String)
    (hos : outputfiles p = .ok os) (hdone : (syncOpens os exe.opens).2 = true)
    (hexit : exe.exitCode ≠ 0) :
    runModel p exe decode = RunOutcome.raises exe.exitCode exe.stdout false := by
  simp [runModel, hos, hdone, hexit]

/-- Witness for `C3_process_failure_amended` at the empty plan and the
status-5 executable. -/
theorem C3_process_failure_witness :
    outputfiles pC3 = .ok [] ∧
    (syncOpens [] exeC3.opens).2 = true ∧
    exeC3.exitCode ≠ 0 ∧
    runModel pC3 exeC3 (fun _ => none) = RunOutcome.raises exeC3.exitCode exeC3.stdout false :=
  ⟨rfl, rfl, by decide,
   C3_process_failure_amended pC3 exeC3 (fun _ => none) [] rfl rfl (by decide)⟩

/-- The result of one full pipeline run as `derivative` consumes it: the
numeric tables keyed by result name, and the `'stdout'` entry held
separately (the loop on line 131 skips exactly the key `'stdout'`). -/
structure RunRes where
  tables : List (String × Table)
  stdout : String

/-- The value `derivative` returns: the differenced tables, plus the pair
`(d0['stdout'], d1['stdout'])` stored under the stdout key (line 134). -/
structure DerivRes where
  tables : List (String × Table)
  stdouts : String × String

/-- Row-wise piece of `v[:,1:] = (v[:,1:] - w[:,1:])/delta`: column 0 is
kept, the remaining columns are differenced and divided; numpy requires
the sliced shapes to agree (`none` otherwise). -/
def diffRow (delta : ℚ) : List ℚ → List ℚ → Option (List ℚ)
  | [], [] => some []
  | [], _ :: _ => none
  | _ :: _, [] => none
  | a :: as, _b :: bs =>
      if as.length = bs.length then
        some (a :: List.zipWith (fun x y => (x - y) / delta) as bs)
      else none

/-- Table-wise `v[:,1:] = (v[:,1:] - w[:,1:])/delta` (line 132); `none`
embeds the numpy broadcast error on mismatched shapes. -/
def diffTable (delta : ℚ) : Table → Table → Option Table
  | [], [] => some []
  | [], _ :: _ => none
  | _ :: _, [] => none
  | r :: rs, s :: ss =>
      match diffRow delta r s, diffTable delta rs ss with
      | some row, some rest => some (row :: rest)
      | some _, none => none
      | none, _ => none

/-- The loop `for k,v in d1.items(): if k!='stdout': v[:,1:] = ...`
(lines 131-132) over the high run's tables: each key is looked up in the
low run's tables (`d0[k]` raises `KeyError` when absent, embedded as
`Except.error k`), and the difference replaces the table.  A failure
aborts the loop as the Python exception would. -/
def diffAll (delta : ℚ) (d0tabs : List (String × Table)) :
    List (String × Table) → Except String (List (String × Table))
  | [] => .ok []
  | (k, v) :: rest =>
      match getv d0tabs k with
      | none => .error k
      | some w =>
          match diffTable delta v w with
          | none => .error k
          | some t =>
              match diffAll delta d0tabs rest with
              | .error e => .error e
              | .ok r => .ok ((k, t) :: r)

/-- Parameter dictionaries as `derivative` sees them: the perturbed value
is numeric, embedded as `ℚ`. -/
abbrev QParams := List (String × ℚ)

/-- `pycamb.derivative` (lines 124-135) with explicit state passing for
the caller's mutable `params` dictionary:

```
params[dparam] += delta/2
d1 = self(**params)
params[dparam] -= delta
d0 = self(**params)
for k,v in d1.items():
    if k!='stdout': v[:,1:] = (v[:,1:] - d0[k][:,1:])/delta
d1['stdout'] = (d0['stdout'],d1['stdout'])
return d1
```

`run` abstracts one full `self(**params)` pipeline invocation.  The
second component of the result is the final state of the caller's
`params` dictionary (the source never restores it).  `params[dparam]`
raises `KeyError` when absent. -/
def derivative_model (run : QParams → RunRes) (dparam : String)
    (params : QParams) (delta : ℚ) : Except String DerivRes × QParams :=
  match getv params dparam with
  | none => (.error dparam, params)
  | some v0 =>
      let p1 := dictSet params dparam (v0 + delta / 2)
      let d1 := run p1
      match getv p1 dparam with
      | none => (.error dparam, p1)
      | some v1 =>
          let p2 := dictSet p1 dparam (v1 - delta)
          let d0 := run p2
          match diffAll delta d0.tables d1.tables with
          | .error e => (.error e, p2)
          | .ok tabs => (.ok ⟨tabs, (d0.stdout, d1.stdout)⟩, p2)


/-- The claim's element-wise centered difference: defined only when both
operands exist. -/
def optDiff (delta : ℚ) : Option ℚ → Option ℚ → Option ℚ
  | some a, some b => some ((a - b) / delta)
  | some _, none => none
  | none, _ => none

theorem zipWith_diff_getElem? (delta : ℚ) (as : List ℚ) :
    ∀ (bs : List ℚ), as.length = bs.length → ∀ (j : Nat),
      (List.zipWith (fun x y => (x - y) / delta) as bs)[j]?
        = optDiff delta as[j]? bs[j]? := by
  induction as with
  | nil =>
      intro bs h j
      cases bs with
      | nil => simp [optDiff]
      | cons b bs' => simp at h
  | cons a as ih =>
      intro bs h j
      cases bs with
      | nil => simp at h
      | cons b bs' =>
          cases j with
          | zero => simp [optDiff]
          | succ j' =>
              simp only [List.zipWith_cons_cons, List.getElem?_cons_succ]
              exact ih bs' (by simpa using h) j'

theorem diffRow_spec (delta : ℚ) (v w r : List ℚ) (h : diffRow delta v w = some r) :
    r[0]? = v[0]? ∧ ∀ j : Nat, r[j + 1]? = optDiff delta v[j + 1]? w[j + 1]? := by
  match v, w with
  | [], [] =>
      simp only [diffRow, Option.some.injEq] at h
      subst h
      exact ⟨rfl, fun j => by simp [optDiff]⟩
  | [], b :: bs => simp [diffRow] at h
  | a :: as, [] => simp [diffRow] at h
  | a :: as, b :: bs =>
      simp only [diffRow] at h
      by_cases hlen : as.length = bs.length
      · rw [if_pos hlen] at h
        injection h with h
        subst h
        refine ⟨by simp, fun j => ?_⟩
        simp only [List.getElem?_cons_succ]
        exact zipWith_diff_getElem? delta as bs hlen j
      · rw [if_neg hlen] at h
        simp at h

theorem diffTable_spec (delta : ℚ) :
    ∀ (v w t : Table), diffTable delta v w = some t →
      t.length = v.length ∧ v.length = w.length ∧
      ∀ (i : Nat) (rv rw : List ℚ), v[i]? = some rv → w[i]? = some rw →
        ∃ r, t[i]? = some r ∧ diffRow delta rv rw = some r := by
  intro v
  induction v with
  | nil =>
      intro w t h
      cases w with
      | nil =>
          simp only [diffTable, Option.some.injEq] at h
          subst h
          exact ⟨rfl, rfl, fun i rv rw hrv => by simp at hrv⟩
      | cons s ss => simp [diffTable] at h
  | cons r rs ih =>
      intro w t h
      cases w with
      | nil => simp [diffTable] at h
      | cons s ss =>
          simp only [diffTable] at h
          cases hrow : diffRow delta r s with
          | none => simp [hrow] at h
          | some row =>
              cases hrest : diffTable delta rs ss with
              | none => simp [hrow, hrest] at h
              | some rest =>
                  simp only [hrow, hrest, Option.some.injEq] at h
                  subst h
                  obtain ⟨hlen1, hlen2, hrows⟩ := ih ss rest hrest
                  refine ⟨by simp [hlen1], by simp [hlen2], ?_⟩
                  intro i rv rw hrv hrw
                  cases i with
                  | zero =>
                      simp only [List.getElem?_cons_zero, Option.some.injEq] at hrv hrw
                      exact ⟨row, by simp, by rw [← hrv, ← hrw]; exact hrow⟩
                  | succ i' =>
                      simp only [List.getElem?_cons_succ] at hrv hrw ⊢
                      exact hrows i' rv rw hrv hrw

/-- Pointwise reading of `diffTable`: column 0 of every row is unchanged
from the high table, every later column is the centered difference. -/
theorem diffTable_pointwise (delta : ℚ) (v w t : Table)
    (h : diffTable delta v w = some t) :
    t.length = v.length ∧
    (∀ i : Nat, (t[i]?).bind (fun row => row[0]?) = (v[i]?).bind (fun row => row[0]?)) ∧
    (∀ i j : Nat, (t[i]?).bind (fun row => row[j + 1]?)
        = optDiff delta ((v[i]?).bind (fun row => row[j + 1]?))
                        ((w[i]?).bind (fun row => row[j + 1]?))) := by
  obtain ⟨hlen1, hlen2, hrows⟩ := diffTable_spec delta v w t h
  have hnone : ∀ i : Nat, t[i]? = none → v[i]? = none := by
    intro i hti
    exact List.getElem?_eq_none (hlen1 ▸ List.getElem?_eq_none_iff.mp hti)
  have hsome : ∀ (i : Nat) (r : List ℚ), t[i]? = some r →
      ∃ rv rw, v[i]? = some rv ∧ w[i]? = some rw ∧ diffRow delta rv rw = some r := by
    intro i r hti
    cases hvi : v[i]? with
    | none =>
        have : t[i]? = none :=
          List.getElem?_eq_none (hlen1.symm ▸ List.getElem?_eq_none_iff.mp hvi)
        rw [this] at hti
        cases hti
    | some rv =>
        cases hwi : w[i]? with
        | none =>
            have : v[i]? = none :=
              List.getElem?_eq_none (hlen2.symm ▸ List.getElem?_eq_none_iff.mp hwi)
            rw [this] at hvi
            cases hvi
        | some rw =>
            obtain ⟨r', htr', hdr'⟩ := hrows i rv rw hvi hwi
            rw [hti] at htr'
            injection htr' with hrr
            subst hrr
            exact ⟨rv, rw, rfl, rfl, hdr'⟩
  refine ⟨hlen1, ?_, ?_⟩
  · intro i
    cases hti : t[i]? with
    | none => simp [hnone i hti]
    | some r =>
        obtain ⟨rv, rw, hvi, hwi, hdr⟩ := hsome i r hti
        obtain ⟨h0, _⟩ := diffRow_spec delta rv rw r hdr
        simp [hvi, h0]
  · intro i j
    cases hti : t[i]? with
    | none => simp [hnone i hti, optDiff]
    | some r =>
        obtain ⟨rv, rw, hvi, hwi, hdr⟩ := hsome i r hti
        obtain ⟨_, hj⟩ := diffRow_spec delta rv rw r hdr
        simp [hvi, hwi, hj j]

theorem diffAll_spec (delta : ℚ) (d0tabs : List (String × Table)) :
    ∀ (l l' : List (String × Table)), diffAll delta d0tabs l = .ok l' →
      l'.map Prod.fst = l.map Prod.fst ∧
      ∀ k t, getv l' k = some t →
        ∃ v w, getv l k = some v ∧ getv d0tabs k = some w ∧
          diffTable delta v w = some t := by
  intro l
  induction l with
  | nil =>
      intro l' h
      simp only [diffAll, Except.ok.injEq] at h
      subst h
      exact ⟨rfl, fun k t ht => by simp [getv] at ht⟩
  | cons kv rest ih =>
      obtain ⟨k0, v0⟩ := kv
      intro l' h
      simp only [diffAll] at h
      cases hw0 : getv d0tabs k0 with
      | none => simp [hw0] at h
      | some w0 =>
          cases hdt : diffTable delta v0 w0 with
          | none => simp [hw0, hdt] at h
          | some t0 =>
              cases hrec : diffAll delta d0tabs rest with
              | error e => simp [hw0, hdt, hrec] at h
              | ok rr =>
                  simp only [hw0, hdt, hrec, Except.ok.injEq] at h
                  subst h
                  obtain ⟨hmap, hkeys⟩ := ih rr hrec
                  refine ⟨by simp [hmap], ?_⟩
                  intro k t ht
                  by_cases hk : k0 = k
                  · subst hk
                    simp only [getv, if_pos rfl, Option.some.injEq] at ht
                    exact ⟨v0, w0, by simp [getv], hw0, by rw [← ht]; exact hdt⟩
                  · simp only [getv, if_neg hk] at ht
                    obtain ⟨v, w, hv, hw, hd⟩ := hkeys k t ht
                    exact ⟨v, w, by simp [getv, hk, hv], hw, hd⟩

/-- C9: `derivative` runs the pipeline twice — first at the key's value
increased by `delta/2`, then (by subtracting `delta` from the same
mutable dictionary) at the value decreased by `delta/2` relative to the
original; for every result key other than the stdout payload the returned
table keeps column 0 of the high run and holds `(high - low)/delta` in
every later column, and the stdout payload is not differenced but
returned as the pair of both raw payloads. -/
theorem C9_derivative_centered (run : QParams → RunRes) (dparam : String)
    (params : QParams) (delta v0 : ℚ) (res : DerivRes) (pfin : QParams)
    (hv : getv params dparam = some v0)
    (hres : derivative_model run dparam params delta = (.ok res, pfin)) :
    res.stdouts = ((run (dictSet params dparam (v0 - delta / 2))).stdout,
                   (run (dictSet params dparam (v0 + delta / 2))).stdout) ∧
    res.tables.map Prod.fst
      = (run (dictSet params dparam (v0 + delta / 2))).tables.map Prod.fst ∧
    ∀ k t, getv res.tables k = some t →
      ∃ v w, getv (run (dictSet params dparam (v0 + delta / 2))).tables k = some v ∧
             getv (run (dictSet params dparam (v0 - delta / 2))).tables k = some w ∧
             t.length = v.length ∧
             (∀ i : Nat, (t[i]?).bind (fun row => row[0]?)
                 = (v[i]?).bind (fun row => row[0]?)) ∧
             (∀ i j : Nat, (t[i]?).bind (fun row => row[j + 1]?)
                 = optDiff delta ((v[i]?).bind (fun row => row[j + 1]?))
                                 ((w[i]?).bind (fun row => row[j + 1]?))) := by
  have h1 : getv (dictSet params dparam (v0 + delta / 2)) dparam = some (v0 + delta / 2) :=
    getv_dictSet_self params dparam _
  have harg : v0 + delta / 2 - delta = v0 - delta / 2 := by ring
  have hp2 : dictSet (dictSet params dparam (v0 + delta / 2)) dparam (v0 + delta / 2 - delta)
      = dictSet params dparam (v0 - delta / 2) := by
    rw [dictSet_dictSet, harg]
  simp only [derivative_model, hv, h1, hp2] at hres
  cases hda : diffAll delta (run (dictSet params dparam (v0 - delta / 2))).tables
      (run (dictSet params dparam (v0 + delta / 2))).tables with
  | error e => simp [hda] at hres
  | ok tabs =>
      simp only [hda, Prod.mk.injEq, Except.ok.injEq] at hres
      obtain ⟨h_res, h_pfin⟩ := hres
      subst h_res
      obtain ⟨hmap, hkeys⟩ := diffAll_spec delta _ _ tabs hda
      refine ⟨rfl, hmap, ?_⟩
      intro k t ht
      obtain ⟨v, w, hvk, hwk, hdt⟩ := hkeys k t ht
      obtain ⟨hlen, hcol0, hcols⟩ := diffTable_pointwise delta v w t hdt
      exact ⟨v, w, hvk, hwk, hlen, hcol0, hcols⟩

/-- C10: `derivative` mutates the caller's `params` dictionary in place
and does not restore it — after a successful call the perturbed key holds
its original value minus `delta/2` and every other key is unchanged. -/
theorem C10_derivative_mutates_params (run : QParams → RunRes) (dparam : String)
    (params : QParams) (delta v0 : ℚ) (res : DerivRes) (pfin : QParams)
    (hv : getv params dparam = some v0)
    (hres : derivative_model run dparam params delta = (.ok res, pfin)) :
    getv pfin dparam = some (v0 - delta / 2) ∧
    ∀ k, k ≠ dparam → getv pfin k = getv params k := by
  have h1 : getv (dictSet params dparam (v0 + delta / 2)) dparam = some (v0 + delta / 2) :=
    getv_dictSet_self params dparam _
  have harg : v0 + delta / 2 - delta = v0 - delta / 2 := by ring
  have hp2 : dictSet (dictSet params dparam (v0 + delta / 2)) dparam (v0 + delta / 2 - delta)
      = dictSet params dparam (v0 - delta / 2) := by
    rw [dictSet_dictSet, harg]
  simp only [derivative_model, hv, h1, hp2] at hres
  cases hda : diffAll delta (run (dictSet params dparam (v0 - delta / 2))).tables
      (run (dictSet params dparam (v0 + delta / 2))).tables with
  | error e => simp [hda] at hres
  | ok tabs =>
      simp only [hda, Prod.mk.injEq, Except.ok.injEq] at hres
      obtain ⟨h_res, h_pfin⟩ := hres
      subst h_pfin
      constructor
      · exact getv_dictSet_self params dparam _
      · intro k hk
        exact getv_dictSet_ne params dparam k _ (Ne.symm hk)

/-- A concrete pipeline stub whose single `t` table echoes the `x`
parameter in column 1. -/
def runC9 : QParams → RunRes :=
  fun p => ⟨[("t", [[5, (getv p "x").getD 0]])], "o"⟩

/-- The derivative result for `runC9` at `x = 10`, `delta = 2`. -/
def resC9 : DerivRes := ⟨[("t", [[5, 1]])], ("o", "o")⟩

/-- Evaluation of `derivative_model` on the stub pipeline at `x = 10`,
`delta = 2`: the high run sees `x = 11`, the low run `x = 9`, and the
differenced column is `(11 - 9)/2 = 1`. -/
theorem derivC9_eval :
    derivative_model runC9 "x" [("x", 10)] 2 = (.ok resC9, [("x", 9)]) := by
  have e1 : (10 : ℚ) + 2 / 2 = 11 := by norm_num
  have e2 : (11 : ℚ) - 2 = 9 := by norm_num
  have e3 : ((11 : ℚ) - 9) / 2 = 1 := by norm_num
  simp [derivative_model, runC9, resC9, getv, dictSet, diffAll, diffTable, diffRow,
    e1, e2, e3]
  norm_num

/-- Witness for `C9_derivative_centered` on the stub pipeline. -/
theorem C9_derivative_centered_witness :
    getv [("x", (10 : ℚ))] "x" = some 10 ∧
    derivative_model runC9 "x" [("x", 10)] 2 = (.ok resC9, [("x", 9)]) ∧
    (resC9.stdouts = ((runC9 (dictSet [("x", 10)] "x" (10 - 2 / 2))).stdout,
                      (runC9 (dictSet [("x", 10)] "x" (10 + 2 / 2))).stdout) ∧
     resC9.tables.map Prod.fst
       = (runC9 (dictSet [("x", 10)] "x" (10 + 2 / 2))).tables.map Prod.fst ∧
     ∀ k t, getv resC9.tables k = some t →
       ∃ v w, getv (runC9 (dictSet [("x", 10)] "x" (10 + 2 / 2))).tables k = some v ∧
              getv (runC9 (dictSet [("x", 10)] "x" (10 - 2 / 2))).tables k = some w ∧
              t.length = v.length ∧
              (∀ i : Nat, (t[i]?).bind (fun row => row[0]?)
                  = (v[i]?).bind (fun row => row[0]?)) ∧
              (∀ i j : Nat, (t[i]?).bind (fun row => row[j + 1]?)
                  = optDiff 2 ((v[i]?).bind (fun row => row[j + 1]?))
                              ((w[i]?).bind (fun row => row[j + 1]?)))) :=
  ⟨rfl, derivC9_eval,
   C9_derivative_centered runC9 "x" [("x", 10)] 2 10 resC9 [("x", 9)] rfl derivC9_eval⟩

/-- Witness for `C10_derivative_mutates_params` on the stub pipeline:
after the call, `params['x']` is `9 = 10 - 2/2`. -/
theorem C10_derivative_mutates_params_witness :
    getv [("x", (10 : ℚ))] "x" = some 10 ∧
    derivative_model runC9 "x" [("x", 10)] 2 = (.ok resC9, [("x", 9)]) ∧
    (getv [("x", (9 : ℚ))] "x" = some (10 - 2 / 2) ∧
     ∀ k, k ≠ "x" → getv [("x", (9 : ℚ))] k = getv [("x", (10 : ℚ))] k) :=
  ⟨rfl, derivC9_eval,
   C10_derivative_mutates_params runC9 "x" [("x", 10)] 2 10 resC9 [("x", 9)] rfl derivC9_eval⟩

/-- Atomic actions of the run relevant to the readiness ordering:
`setEvent` is `ro_started.set()` (line 94), `openRead n` is the blocking
`open(p[k])` for the `n`-th planned channel (line 96), `waitEvent` is
`ro_started.wait()` (line 108), and `startProc` is the
`subprocess.check_output` launch (line 111). -/
inductive Act where
  | setEvent : Act
  | waitEvent : Act
  | startProc : Act
  | openRead : Nat → Act
deriving DecidableEq

/-- The reader thread's program (`readoutputs`, lines 93-99): it sets the
readiness event FIRST, then performs its blocking opens in order. -/
def readerProg (os : List Nat) : List Act :=
  Act.setEvent :: os.map Act.openRead

/-- The orchestrator's program after starting the threads (lines
108-111): wait on the readiness event, then start the executable. -/
def mainProg : List Act := [Act.waitEvent, Act.startProc]

/-- `Interleave as bs cs`: `cs` is an interleaving of the two threads'
programs `as` and `bs` preserving each thread's order — the set of
schedules the runtime may produce. -/
inductive Interleave : List Act → List Act → List Act → Prop where
  | nil : Interleave [] [] []
  | left {a : Act} {as bs cs : List Act} :
      Interleave as bs cs → Interleave (a :: as) bs (a :: cs)
  | right {b : Act} {as bs cs : List Act} :
      Interleave as bs cs → Interleave as (b :: bs) (b :: cs)

/-- Semantics of the `threading.Event`: scanning the trace, a `waitEvent`
can only occur once `setEvent` has occurred. -/
def goEvent : List Act → Bool → Bool
  | [], _ => true
  | Act.setEvent :: t, _ => goEvent t true
  | Act.waitEvent :: t, seen => seen && goEvent t seen
  | _ :: t, seen => goEvent t seen

/-- A trace respects the event iff every `waitEvent` is preceded by
`setEvent`. -/
def eventOK (t : List Act) : Bool := goEvent t false

/-- The actions executed strictly before the executable is started. -/
def beforeStart : List Act → List Act
  | [] => []
  | a :: t => if a = Act.startProc then [] else a :: beforeStart t

/-- C1 counterexample: the schedule `setEvent; waitEvent; startProc;
openRead 0` is a legal interleaving of the reader program for one planned
channel with the orchestrator program, it respects the event semantics,
and yet the executable starts before the reader has reached its blocking
open — because `readoutputs` sets the readiness event before any open,
the signal does not mean the readers are blocked in `open`. -/
theorem C1_readiness_counterexample :
    Interleave (readerProg [0]) mainProg
      [Act.setEvent, Act.waitEvent, Act.startProc, Act.openRead 0] ∧
    eventOK [Act.setEvent, Act.waitEvent, Act.startProc, Act.openRead 0] = true ∧
    Act.openRead 0 ∉
      beforeStart [Act.setEvent, Act.waitEvent, Act.startProc, Act.openRead 0] :=
  ⟨Interleave.left (Interleave.right (Interleave.right (Interleave.left Interleave.nil))),
   by decide, by decide⟩

theorem goEvent_setEvent_before_waitEvent (t : List Act) :
    ∀ (u v : List Act), goEvent t false = true → t = u ++ Act.waitEvent :: v →
      Act.setEvent ∈ u := by
  induction t with
  | nil =>
      intro u v _ heq
      exact absurd heq (by simp)
  | cons a t' ih =>
      intro u v hgo heq
      cases u with
      | nil =>
          simp only [List.nil_append] at heq
          obtain ⟨ha, -⟩ := List.cons.inj heq
          subst ha
          simp [goEvent] at hgo
      | cons b u' =>
          simp only [List.cons_append] at heq
          obtain ⟨hb, ht'⟩ := List.cons.inj heq
          subst hb
          cases a with
          | setEvent => exact List.mem_cons_self _ _
          | waitEvent => simp [goEvent] at hgo
          | startProc =>
              have : goEvent t' false = true := by simpa [goEvent] using hgo
              exact List.mem_cons_of_mem _ (ih u' v this ht')
          | openRead n =>
              have : goEvent t' false = true := by simpa [goEvent] using hgo
              exact List.mem_cons_of_mem _ (ih u' v this ht')

theorem interleave_waitEvent_before_startProc
    {as bs t : List Act} (h : Interleave as bs t)
    (hno : Act.startProc ∉ as) (hbs : bs = mainProg) :
    ∀ (u v : List Act), t = u ++ Act.startProc :: v → Act.waitEvent ∈ u := by
  induction h with
  | nil =>
      intro u v heq
      exact absurd heq (by simp)
  | @left a as' bs' cs' _ ih =>
      intro u v heq
      cases u with
      | nil =>
          simp only [List.nil_append] at heq
          obtain ⟨ha, -⟩ := List.cons.inj heq
          exact absurd (ha ▸ List.mem_cons_self a as') hno
      | cons b u' =>
          simp only [List.cons_append] at heq
          obtain ⟨hb, ht⟩ := List.cons.inj heq
          exact List.mem_cons_of_mem _
            (ih (fun hm => hno (List.mem_cons_of_mem _ hm)) hbs u' v ht)
  | @right b as' bs' cs' _ _ =>
      intro u v heq
      have hb : b = Act.waitEvent := by
        have := hbs
        simp only [mainProg] at this
        exact (List.cons.inj this).1
      cases u with
      | nil =>
          simp only [List.nil_append] at heq
          obtain ⟨hb', -⟩ := List.cons.inj heq
          rw [hb] at hb'
          cases hb'
      | cons c u' =>
          simp only [List.cons_append] at heq
          obtain ⟨hc, -⟩ := List.cons.inj heq
          rw [hb] at hc
          rw [← hc]
          exact List.mem_cons_self _ _

/-- C1 (amended): the readiness signal fires when the reader task starts
executing — `readoutputs` sets the event as its first action, before any
blocking open — so the guarantee the `ro_started.wait()` gives the
orchestrator is only that the executable is never started before the
reader thread has begun (in every event-respecting schedule, `setEvent`
precedes `startProc`); the executable may start before the reader reaches
any of its blocking open calls. -/
theorem C1_readiness_amended (os : List Nat) (t u v : List Act)
    (hint : Interleave (readerProg os) mainProg t)
    (hev : eventOK t = true)
    (hsplit : t = u ++ Act.startProc :: v) :
    Act.setEvent ∈ u := by
  have hno : Act.startProc ∉ readerProg os := by
    simp [readerProg]
  have hw : Act.waitEvent ∈ u :=
    interleave_waitEvent_before_startProc hint hno rfl u v hsplit
  obtain ⟨u₁, u₂, hu⟩ := List.append_of_mem hw
  have ht : t = u₁ ++ Act.waitEvent :: (u₂ ++ Act.startProc :: v) := by
    rw [hsplit, hu]
    simp
  have hset : Act.setEvent ∈ u₁ :=
    goEvent_setEvent_before_waitEvent t u₁ (u₂ ++ Act.startProc :: v) hev ht
  rw [hu]
  exact List.mem_append_left _ hset

/-- Witness for `C1_readiness_amended` on the concrete schedule
`setEvent; waitEvent; startProc; openRead 0`. -/
theorem C1_readiness_witness :
    Interleave (readerProg [0]) mainProg
      [Act.setEvent, Act.waitEvent, Act.startProc, Act.openRead 0] ∧
    eventOK [Act.setEvent, Act.waitEvent, Act.startProc, Act.openRead 0] = true ∧
    ([Act.setEvent, Act.waitEvent, Act.startProc, Act.openRead 0]
      = [Act.setEvent, Act.waitEvent] ++ Act.startProc :: [Act.openRead 0]) ∧
    Act.setEvent ∈ [Act.setEvent, Act.waitEvent] :=
  ⟨Interleave.left (Interleave.right (Interleave.right (Interleave.left Interleave.nil))),
   by decide, rfl,
   C1_readiness_amended [0] _ [Act.setEvent, Act.waitEvent] [Act.openRead 0]
     (Interleave.left (Interleave.right (Interleave.right (Interleave.left Interleave.nil))))
     (by decide) rfl⟩
